import Mathlib

/-!
Verification of the rule aggregation and optimization scripts: a shallow
embedding of the parsing, merging, optimizing and writing functions of
Script/domain_merge_optimizer.py, Script/list_to_json_converter.py,
Script/list_to_yaml_converter.py and Script/list_to_json/list_to_json.py,
together with proofs of the specified properties.

Strings are modelled by Lean `String` and Python string operations by
structurally recursive functions over the underlying character lists, so
that every definition is executable by the kernel.
-/

/-- Characters remaining after the first comma, the empty list when no comma
occurs.  Models Python `line.split(",", 1)[1]`; callers guard on the
presence of a comma, exactly as the scripts do. -/
def restAfterComma : List Char → List Char
  | [] => []
  | c :: cs => if c = ',' then cs else restAfterComma cs

/-- Characters before the first comma, the whole list when no comma occurs.
Models Python `line.split(",")[0]`. -/
def firstField : List Char → List Char
  | [] => []
  | c :: cs => if c = ',' then [] else c :: firstField cs

/-- Does the line contain a comma, i.e. does Python `line.split(",")` have at
least two fields. -/
def hasComma (l : List Char) : Bool := l.any (fun c => c == ',')

/-- Python `str.strip()`: drop leading and trailing whitespace. -/
def strTrim (s : String) : String :=
  ⟨((s.data.dropWhile Char.isWhitespace).reverse.dropWhile Char.isWhitespace).reverse⟩

/-- Python `str.startswith(p)`. -/
def strStartsWith (s p : String) : Bool := p.data.isPrefixOf s.data

namespace DomainMergeOptimizer

/-- domain_merge_optimizer.is_subdomain_of: `domain` counts as a subdomain of
`suffix` when the two differ and `domain` ends with `"." + suffix`. -/
def is_subdomain_of (domain : String) (suffix : String) : Bool :=
  if domain == suffix then false
  else if ("." ++ suffix).data.isSuffixOf domain.data then true
  else false

/-- Processing of one raw line by domain_merge_optimizer.parse_list_file:
strip, skip blank and `#` lines, collect stripped non-empty payloads of
`DOMAIN,` lines into the first set and of `DOMAIN-SUFFIX,` lines into the
second set. -/
def parseStep (acc : Finset String × Finset String) (rawLine : String) :
    Finset String × Finset String :=
  let line := strTrim rawLine
  if line = "" then acc
  else if strStartsWith line "#" then acc
  else if strStartsWith line "DOMAIN," then
    let domain := strTrim ⟨restAfterComma line.data⟩
    if domain = "" then acc else (insert domain acc.1, acc.2)
  else if strStartsWith line "DOMAIN-SUFFIX," then
    let suffix := strTrim ⟨restAfterComma line.data⟩
    if suffix = "" then acc else (acc.1, insert suffix acc.2)
  else acc

/-- domain_merge_optimizer.parse_list_file over the lines of the file,
returning the set of DOMAIN values and the set of DOMAIN-SUFFIX values. -/
def parse_list_file (lines : List String) : Finset String × Finset String :=
  lines.foldl parseStep (∅, ∅)

/-- domain_merge_optimizer.optimize_domains: keep exactly the domains that
no suffix of `domain_suffixes` covers. -/
def optimize_domains (all_domains : Finset String) (domain_suffixes : Finset String) :
    Finset String :=
  all_domains.filter fun domain => ∀ s ∈ domain_suffixes, is_subdomain_of domain s = false

/-- Steps 5 and 6 of domain_merge_optimizer.main: union the parsed domains
with the previously persisted domains and with the parsed suffixes, then
optimize against the parsed suffixes. -/
def mainMergeOptimize (lines : List String) (existing : Finset String) : Finset String :=
  let parsed := parse_list_file lines
  let all_domains := parsed.1 ∪ existing ∪ parsed.2
  optimize_domains all_domains parsed.2

end DomainMergeOptimizer

/-- C1: the covering predicate holds exactly when the domain differs from the
suffix and ends with the literal string `"." + suffix`, and in particular it
holds for mail.example.com / example.com and fails both when domain and
suffix coincide and for notexample.com / example.com. -/
theorem is_subdomain_of_spec :
    (∀ d s : String, DomainMergeOptimizer.is_subdomain_of d s = true ↔
      d ≠ s ∧ ∃ t : List Char, d.data = t ++ ("." ++ s).data) ∧
    DomainMergeOptimizer.is_subdomain_of "mail.example.com" "example.com" = true ∧
    DomainMergeOptimizer.is_subdomain_of "example.com" "example.com" = false ∧
    DomainMergeOptimizer.is_subdomain_of "notexample.com" "example.com" = false := by
  refine ⟨?_, by decide, by decide, by decide⟩
  intro d s
  unfold DomainMergeOptimizer.is_subdomain_of
  by_cases h : d = s
  · subst h
    simp
  · have hb : (d == s) = false := by
      simp [h]
    rw [hb]
    simp only [Bool.false_eq_true, if_false, h, ne_eq, not_false_iff, true_and]
    by_cases hs : (("." ++ s).data.isSuffixOf d.data) = true
    · rw [if_pos hs]
      obtain ⟨t, ht⟩ := List.isSuffixOf_iff_suffix.mp hs
      exact iff_of_true rfl ⟨t, ht.symm⟩
    · rw [if_neg hs]
      refine iff_of_false (by simp) ?_
      rintro ⟨t, ht⟩
      exact hs (List.isSuffixOf_iff_suffix.mpr ⟨t, ht.symm⟩)

/-- C2: a domain is retained by optimize_domains exactly when no suffix of
the suffix set covers it, and on the three-line example document the merged
and optimized domain set is exactly the singleton example.com, so
mail.example.com is removed while the exact duplicate example.com stays. -/
theorem optimize_domains_spec :
    (∀ (D S : Finset String) (d : String),
      d ∈ DomainMergeOptimizer.optimize_domains D S ↔
        d ∈ D ∧ ¬ ∃ s ∈ S, DomainMergeOptimizer.is_subdomain_of d s = true) ∧
    DomainMergeOptimizer.mainMergeOptimize
        ["DOMAIN,mail.example.com", "DOMAIN,example.com", "DOMAIN-SUFFIX,example.com"] ∅ =
      {"example.com"} := by
  constructor
  · intro D S d
    simp only [DomainMergeOptimizer.optimize_domains, Finset.mem_filter, not_exists, not_and]
    constructor
    · rintro ⟨hD, hall⟩
      exact ⟨hD, fun s hs => by simp [hall s hs]⟩
    · rintro ⟨hD, hall⟩
      refine ⟨hD, fun s hs => ?_⟩
      have := hall s hs
      exact Bool.eq_false_iff.mpr (fun hc => this hc)
  · decide

/-- C10: with a fixed domain set, optimization against a larger suffix set
yields a subset of the optimization against a smaller one, and optimization
always yields a subset of the input domain set. -/
theorem optimize_domains_mono (D S T : Finset String) (h : S ⊆ T) :
    DomainMergeOptimizer.optimize_domains D T ⊆ DomainMergeOptimizer.optimize_domains D S ∧
    DomainMergeOptimizer.optimize_domains D S ⊆ D := by
  constructor
  · intro d hd
    simp only [DomainMergeOptimizer.optimize_domains, Finset.mem_filter] at hd ⊢
    exact ⟨hd.1, fun s hs => hd.2 s (h hs)⟩
  · exact Finset.filter_subset _ _

/-- C10 witness: the monotonicity theorem applied at concrete sets. -/
theorem optimize_domains_mono_witness :
    (({"example.com"} : Finset String) ⊆ {"example.com", "b"}) ∧
    (DomainMergeOptimizer.optimize_domains {"mail.example.com", "c.b"} {"example.com", "b"} ⊆
       DomainMergeOptimizer.optimize_domains {"mail.example.com", "c.b"} {"example.com"} ∧
     DomainMergeOptimizer.optimize_domains {"mail.example.com", "c.b"} {"example.com"} ⊆
       {"mail.example.com", "c.b"}) :=
  ⟨by decide, optimize_domains_mono {"mail.example.com", "c.b"} {"example.com"}
      {"example.com", "b"} (by decide)⟩

/-- Heads surviving List.dropWhile falsify the dropped predicate. -/
theorem dropWhile_head_false (p : Char → Bool) :
    ∀ (l : List Char) (c : Char) (t : List Char), l.dropWhile p = c :: t → p c = false := by
  intro l
  induction l with
  | nil => intro c t h; simp at h
  | cons a as ih =>
    intro c t h
    rw [List.dropWhile_cons] at h
    by_cases ha : p a = true
    · rw [if_pos ha] at h
      exact ih c t h
    · rw [if_neg ha] at h
      injection h with h1 h2
      subst h1
      exact Bool.eq_false_iff.mpr ha

/-- Trimming from the right preserves the absence of leading whitespace. -/
theorem trimmed_dropWhile (l : List Char) :
    (List.rdropWhile Char.isWhitespace (l.dropWhile Char.isWhitespace)).dropWhile
        Char.isWhitespace =
      List.rdropWhile Char.isWhitespace (l.dropWhile Char.isWhitespace) := by
  cases hR : List.rdropWhile Char.isWhitespace (l.dropWhile Char.isWhitespace) with
  | nil => rfl
  | cons c cs =>
    have hpre := List.rdropWhile_prefix Char.isWhitespace (l.dropWhile Char.isWhitespace)
    rw [hR] at hpre
    obtain ⟨t, ht⟩ := hpre
    have hdw : l.dropWhile Char.isWhitespace = c :: (cs ++ t) := by
      rw [← ht, List.cons_append]
    have hc := dropWhile_head_false Char.isWhitespace l c (cs ++ t) hdw
    rw [List.dropWhile_cons, if_neg (by simp [hc])]

/-- Python strip is idempotent: strTrim output is a strTrim fixed point. -/
theorem strTrim_idem (s : String) : strTrim (strTrim s) = strTrim s := by
  have hrd : ∀ l : List Char,
      (l.reverse.dropWhile Char.isWhitespace).reverse = List.rdropWhile Char.isWhitespace l :=
    fun _ => rfl
  unfold strTrim
  simp only [hrd]
  congr 1
  rw [trimmed_dropWhile]
  exact List.rdropWhile_idempotent Char.isWhitespace _

/-- Each parse step of domain_merge_optimizer preserves the value invariant:
all collected values are non-empty strip fixed points. -/
theorem parseStep_values (acc : Finset String × Finset String) (rawLine : String)
    (h1 : ∀ d ∈ acc.1, d ≠ "" ∧ strTrim d = d)
    (h2 : ∀ d ∈ acc.2, d ≠ "" ∧ strTrim d = d) :
    (∀ d ∈ (DomainMergeOptimizer.parseStep acc rawLine).1, d ≠ "" ∧ strTrim d = d) ∧
    (∀ d ∈ (DomainMergeOptimizer.parseStep acc rawLine).2, d ≠ "" ∧ strTrim d = d) := by
  unfold DomainMergeOptimizer.parseStep
  dsimp only
  split_ifs with he hc hd hde hs hse
  · exact ⟨h1, h2⟩
  · exact ⟨h1, h2⟩
  · exact ⟨h1, h2⟩
  · refine ⟨?_, h2⟩
    intro d hdmem
    rcases Finset.mem_insert.mp hdmem with hdv | hdacc
    · subst hdv
      exact ⟨hde, strTrim_idem _⟩
    · exact h1 d hdacc
  · exact ⟨h1, h2⟩
  · refine ⟨h1, ?_⟩
    intro d hdmem
    rcases Finset.mem_insert.mp hdmem with hdv | hdacc
    · subst hdv
      exact ⟨hse, strTrim_idem _⟩
    · exact h2 d hdacc
  · exact ⟨h1, h2⟩

/-- The fold of domain_merge_optimizer's parser preserves the value
invariant from any starting accumulator. -/
theorem parse_foldl_values (lines : List String) :
    ∀ acc : Finset String × Finset String,
      (∀ d ∈ acc.1, d ≠ "" ∧ strTrim d = d) →
      (∀ d ∈ acc.2, d ≠ "" ∧ strTrim d = d) →
      (∀ d ∈ (lines.foldl DomainMergeOptimizer.parseStep acc).1, d ≠ "" ∧ strTrim d = d) ∧
      (∀ d ∈ (lines.foldl DomainMergeOptimizer.parseStep acc).2, d ≠ "" ∧ strTrim d = d) := by
  induction lines with
  | nil => intro acc h1 h2; exact ⟨h1, h2⟩
  | cons l ls ih =>
    intro acc h1 h2
    rw [List.foldl_cons]
    have hs := parseStep_values acc l h1 h2
    exact ih _ hs.1 hs.2

namespace ListToJsonConverter

/-- The per-type rule arrays of one parsed or merged JSON rule document. -/
structure RulesData where
  domain : List String
  domain_keyword : List String
  domain_suffix : List String
  ip_cidr : List String
deriving DecidableEq

/-- Processing of one raw line by list_to_json_converter.parse_list_file:
strip, skip blank and comment lines, and append the payload after the first
comma verbatim (not stripped, no emptiness check) to the matching array; for
IP-CIDR lines only the second comma-separated field is kept. -/
def convStep (acc : RulesData) (rawLine : String) : RulesData :=
  let line := strTrim rawLine
  if line = "" then acc
  else if strStartsWith line "#" then acc
  else if strStartsWith line "DOMAIN," then
    { acc with domain := acc.domain ++ [⟨restAfterComma line.data⟩] }
  else if strStartsWith line "DOMAIN-KEYWORD," then
    { acc with domain_keyword := acc.domain_keyword ++ [⟨restAfterComma line.data⟩] }
  else if strStartsWith line "DOMAIN-SUFFIX," then
    { acc with domain_suffix := acc.domain_suffix ++ [⟨restAfterComma line.data⟩] }
  else if strStartsWith line "IP-CIDR," || strStartsWith line "IP-CIDR6," then
    { acc with ip_cidr := acc.ip_cidr ++ [⟨firstField (restAfterComma line.data)⟩] }
  else acc

/-- list_to_json_converter.parse_list_file over the lines of the file. -/
def parse_list_file (lines : List String) : RulesData :=
  lines.foldl convStep ⟨[], [], [], []⟩

end ListToJsonConverter

/-- C7 counterexample: the line `DOMAIN,` has an empty payload, yet
list_to_json_converter's parser records an empty-valued domain entry, so an
empty value does enter the collection. -/
theorem parse_empty_value_counterexample :
    (ListToJsonConverter.parse_list_file ["DOMAIN,"]).domain = [""] := by decide

/-- C7 (amended): in domain_merge_optimizer's parser every collected DOMAIN
or DOMAIN-SUFFIX value is non-empty and is a fixed point of stripping, while
list_to_json_converter's parser keeps the payload after the first comma
verbatim and can record empty values. -/
theorem parse_values_nonempty_stripped (lines : List String) (d : String)
    (hd : d ∈ (DomainMergeOptimizer.parse_list_file lines).1 ∨
      d ∈ (DomainMergeOptimizer.parse_list_file lines).2) :
    d ≠ "" ∧ strTrim d = d := by
  have h := parse_foldl_values lines (∅, ∅)
    (fun d hdm => absurd hdm (Finset.not_mem_empty d))
    (fun d hdm => absurd hdm (Finset.not_mem_empty d))
  rcases hd with hd | hd
  · exact h.1 d hd
  · exact h.2 d hd

/-- C7 witness: the amended theorem applied to a concrete parse. -/
theorem parse_values_nonempty_stripped_witness :
    ("foo.com" ∈ (DomainMergeOptimizer.parse_list_file ["DOMAIN,  foo.com  "]).1 ∨
      "foo.com" ∈ (DomainMergeOptimizer.parse_list_file ["DOMAIN,  foo.com  "]).2) ∧
    ("foo.com" ≠ "" ∧ strTrim "foo.com" = "foo.com") :=
  ⟨Or.inl (by decide),
    parse_values_nonempty_stripped ["DOMAIN,  foo.com  "] "foo.com" (Or.inl (by decide))⟩

namespace ListToJson

/-- Result of list_to_json/list_to_json.py: the three rule arrays plus the
count of ignored other-typed lines. -/
structure Result where
  domain : List String
  domain_keyword : List String
  domain_suffix : List String
  ignored : Nat
deriving DecidableEq

/-- Processing of one line by list_to_json.list_to_json: strip, skip empty
lines, skip lines with fewer than two comma-separated fields, uppercase the
first field, and dispatch on it; the value is the second comma-separated
field, kept verbatim.  Unmatched types are counted as ignored. -/
def jsonStep (acc : Result) (rawLine : String) : Result :=
  let line := strTrim rawLine
  if line = "" then acc
  else if hasComma line.data then
    let rule_type : List Char := (firstField line.data).map Char.toUpper
    let value : String := ⟨firstField (restAfterComma line.data)⟩
    if rule_type = "DOMAIN".data then { acc with domain := acc.domain ++ [value] }
    else if rule_type = "DOMAIN-KEYWORD".data then
      { acc with domain_keyword := acc.domain_keyword ++ [value] }
    else if rule_type = "DOMAIN-SUFFIX".data then
      { acc with domain_suffix := acc.domain_suffix ++ [value] }
    else { acc with ignored := acc.ignored + 1 }
  else acc

/-- The line loop of list_to_json.list_to_json. -/
def list_to_json (lines : List String) : Result :=
  lines.foldl jsonStep ⟨[], [], [], 0⟩

end ListToJson

namespace ListToYamlConverter

/-- Rule types the YAML converter keeps. -/
def SUPPORTED_RULE_TYPES : List String :=
  ["DOMAIN-SUFFIX", "DOMAIN-KEYWORD", "IP-CIDR", "IP-CIDR6", "DOMAIN", "DOMAIN-SET",
   "GEOIP", "IP-ASN"]

/-- Rule types the YAML converter filters out. -/
def UNSUPPORTED_RULE_TYPES : List String := ["USER-AGENT", "URL-REGEX", "PROCESS-NAME"]

/-- Rule extraction of one line by list_to_yaml_converter.parse_list_file:
strip, skip comment and blank lines and lines with fewer than two fields,
strip the first two fields, drop unsupported and unknown types (the type is
compared verbatim, without case normalization), and keep `TYPE,value`.
The metadata and statistics bookkeeping of the source, which does not affect
the extracted rules, is not modelled. -/
def yamlStep (acc : List String) (rawLine : String) : List String :=
  let line := strTrim rawLine
  if strStartsWith line "#" then acc
  else if line = "" then acc
  else if hasComma line.data then
    let rule_type := strTrim ⟨firstField line.data⟩
    let rule_value := strTrim ⟨firstField (restAfterComma line.data)⟩
    if rule_type ∈ UNSUPPORTED_RULE_TYPES then acc
    else if rule_type ∈ SUPPORTED_RULE_TYPES then acc ++ [rule_type ++ "," ++ rule_value]
    else acc
  else acc

/-- The rules list built by list_to_yaml_converter.parse_list_file. -/
def parseRules (lines : List String) : List String :=
  lines.foldl yamlStep []

end ListToYamlConverter

/-- C6 counterexample: in domain_merge_optimizer's parser a lowercase type
token is not recognized, so `domain,foo.com` and `DOMAIN,foo.com` do not
parse to the same record. -/
theorem case_insensitive_counterexample :
    ¬ DomainMergeOptimizer.parse_list_file ["domain,foo.com"] =
        DomainMergeOptimizer.parse_list_file ["DOMAIN,foo.com"] := by decide

/-- C6 (amended): the domain_merge_optimizer and list_to_yaml_converter
parsers match type tokens case-sensitively, skipping `domain,foo.com` while
accepting `DOMAIN,foo.com`; only list_to_json.py uppercases the token, so
there both spellings parse to the same Domain record. -/
theorem type_token_case_handling :
    DomainMergeOptimizer.parse_list_file ["domain,foo.com"] = (∅, ∅) ∧
    DomainMergeOptimizer.parse_list_file ["DOMAIN,foo.com"] = ({"foo.com"}, ∅) ∧
    ListToYamlConverter.parseRules ["domain,foo.com"] = [] ∧
    ListToYamlConverter.parseRules ["DOMAIN,foo.com"] = ["DOMAIN,foo.com"] ∧
    ListToJson.list_to_json ["domain,foo.com"] = ListToJson.list_to_json ["DOMAIN,foo.com"] ∧
    (ListToJson.list_to_json ["DOMAIN,foo.com"]).domain = ["foo.com"] := by
  refine ⟨by decide, by decide, by decide, by decide, by decide, by decide⟩

namespace ListToJsonConverter

/-- A merged rule collection: the deduplicated per-type partitions built by
list_to_json_converter.merge_json_files (Python `list(set(...))`). -/
structure MergedData where
  domain : Finset String
  domain_keyword : Finset String
  domain_suffix : Finset String
  ip_cidr : Finset String
deriving DecidableEq

/-- list_to_json_converter.merge_json_files: concatenate the per-type arrays
of all input documents and deduplicate each with set semantics. -/
def merge_json_files (files : List RulesData) : MergedData :=
  let md := files.foldl
    (fun (acc : RulesData) f =>
      { domain := acc.domain ++ f.domain,
        domain_keyword := acc.domain_keyword ++ f.domain_keyword,
        domain_suffix := acc.domain_suffix ++ f.domain_suffix,
        ip_cidr := acc.ip_cidr ++ f.ip_cidr })
    ⟨[], [], [], []⟩
  { domain := md.domain.toFinset,
    domain_keyword := md.domain_keyword.toFinset,
    domain_suffix := md.domain_suffix.toFinset,
    ip_cidr := md.ip_cidr.toFinset }

end ListToJsonConverter

/-- C5: aggregation is a set union under structural equality: merging two
documents is commutative, merging a document with itself equals merging it
once, and two sources that both contribute DOMAIN,foo.com yield exactly one
foo.com entry in the merged domain partition. -/
theorem merge_json_files_union :
    (∀ A B : ListToJsonConverter.RulesData,
      ListToJsonConverter.merge_json_files [A, B] =
        ListToJsonConverter.merge_json_files [B, A]) ∧
    (∀ A : ListToJsonConverter.RulesData,
      ListToJsonConverter.merge_json_files [A, A] =
        ListToJsonConverter.merge_json_files [A]) ∧
    (ListToJsonConverter.merge_json_files
        [⟨["foo.com"], [], [], []⟩, ⟨["foo.com"], [], [], []⟩]).domain = {"foo.com"} := by
  refine ⟨?_, ?_, by decide⟩
  · intro A B
    simp only [ListToJsonConverter.merge_json_files, List.foldl_cons, List.foldl_nil]
    simp only [ListToJsonConverter.MergedData.mk.injEq]
    refine ⟨?_, ?_, ?_, ?_⟩ <;>
      simp [List.toFinset_append, Finset.union_comm]
  · intro A
    simp only [ListToJsonConverter.merge_json_files, List.foldl_cons, List.foldl_nil]
    simp only [ListToJsonConverter.MergedData.mk.injEq]
    refine ⟨?_, ?_, ?_, ?_⟩ <;>
      simp [List.toFinset_append]

/-- The spec's SuffixCoverageOptimizer over a full rule collection.  In the
repository the optimizer (domain_merge_optimizer.optimize_domains) receives
only the domain set and the suffix set; the other partitions never flow into
it, so on a four-partition collection it rewrites the domain partition and
passes everything else through unchanged. -/
def optimizeCollection (c : ListToJsonConverter.MergedData) : ListToJsonConverter.MergedData :=
  { c with domain := DomainMergeOptimizer.optimize_domains c.domain c.domain_suffix }

/-- C3: optimization never removes or alters DomainSuffix, DomainKeyword or
IP-CIDR records: those partitions come out equal to the input, only the
Domain partition shrinks, and every removed entry is a Domain covered by
some present suffix. -/
theorem optimizeCollection_frame (c : ListToJsonConverter.MergedData) :
    (optimizeCollection c).domain_suffix = c.domain_suffix ∧
    (optimizeCollection c).domain_keyword = c.domain_keyword ∧
    (optimizeCollection c).ip_cidr = c.ip_cidr ∧
    (optimizeCollection c).domain ⊆ c.domain ∧
    (∀ d ∈ c.domain, d ∉ (optimizeCollection c).domain →
      ∃ s ∈ c.domain_suffix, DomainMergeOptimizer.is_subdomain_of d s = true) := by
  refine ⟨rfl, rfl, rfl, Finset.filter_subset _ _, ?_⟩
  intro d hd hnot
  simp only [optimizeCollection, DomainMergeOptimizer.optimize_domains,
    Finset.mem_filter, not_and, not_forall] at hnot
  obtain ⟨s, hs, hval⟩ := hnot hd
  exact ⟨s, hs, by simpa using hval⟩

/-- C4: optimization is idempotent on rule collections. -/
theorem optimizeCollection_idem (c : ListToJsonConverter.MergedData) :
    optimizeCollection (optimizeCollection c) = optimizeCollection c := by
  cases c with
  | mk d k s i =>
    simp only [optimizeCollection, DomainMergeOptimizer.optimize_domains]
    simp [Finset.filter_filter]

/-- A line without a comma leaves the list_to_json accumulator unchanged. -/
theorem jsonStep_no_comma (acc : ListToJson.Result) (line : String)
    (h : hasComma (strTrim line).data = false) :
    ListToJson.jsonStep acc line = acc := by
  unfold ListToJson.jsonStep
  dsimp only
  rw [h]
  simp

/-- A line without a comma leaves the YAML rules accumulator unchanged. -/
theorem yamlStep_no_comma (acc : List String) (line : String)
    (h : hasComma (strTrim line).data = false) :
    ListToYamlConverter.yamlStep acc line = acc := by
  unfold ListToYamlConverter.yamlStep
  dsimp only
  rw [h]
  simp

/-- C9: a line with fewer than two comma-separated fields is skipped without
any effect: parsing a document with such a line anywhere in it yields the
same result as parsing the document without it, in both the list_to_json
and the list_to_yaml converters; parsing is total, so no error is raised. -/
theorem malformed_line_skipped (pre post : List String) (line : String)
    (h : hasComma (strTrim line).data = false) :
    ListToJson.list_to_json (pre ++ line :: post) = ListToJson.list_to_json (pre ++ post) ∧
    ListToYamlConverter.parseRules (pre ++ line :: post) =
      ListToYamlConverter.parseRules (pre ++ post) := by
  constructor
  · unfold ListToJson.list_to_json
    rw [List.foldl_append, List.foldl_append, List.foldl_cons, jsonStep_no_comma _ _ h]
  · unfold ListToYamlConverter.parseRules
    rw [List.foldl_append, List.foldl_append, List.foldl_cons, yamlStep_no_comma _ _ h]

/-- C9 witness: the malformed line `DOMAIN` in the middle of a document is
skipped by both converters. -/
theorem malformed_line_skipped_witness :
    hasComma (strTrim "DOMAIN").data = false ∧
    (ListToJson.list_to_json ["DOMAIN,a.com", "DOMAIN", "DOMAIN-SUFFIX,b.com"] =
       ListToJson.list_to_json ["DOMAIN,a.com", "DOMAIN-SUFFIX,b.com"] ∧
     ListToYamlConverter.parseRules ["DOMAIN,a.com", "DOMAIN", "DOMAIN-SUFFIX,b.com"] =
       ListToYamlConverter.parseRules ["DOMAIN,a.com", "DOMAIN-SUFFIX,b.com"]) :=
  ⟨by decide,
    malformed_line_skipped ["DOMAIN,a.com"] ["DOMAIN-SUFFIX,b.com"] "DOMAIN" (by decide)⟩

/-- Lexicographic code-point comparison of character lists: Python's string
comparison. -/
def charListLe : List Char → List Char → Bool
  | [], _ => true
  | _ :: _, [] => false
  | a :: as, b :: bs =>
    if a < b then true
    else if b < a then false
    else charListLe as bs

/-- charListLe is total. -/
theorem charListLe_total : ∀ l1 l2 : List Char,
    charListLe l1 l2 = true ∨ charListLe l2 l1 = true := by
  intro l1
  induction l1 with
  | nil => intro l2; left; cases l2 <;> rfl
  | cons a as ih =>
    intro l2
    cases l2 with
    | nil => right; rfl
    | cons b bs =>
      rcases lt_trichotomy a b with hab | hab | hab
      · left; simp [charListLe, hab]
      · subst hab
        rcases ih bs with h | h
        · left; simp [charListLe, lt_irrefl, h]
        · right; simp [charListLe, lt_irrefl, h]
      · right; simp [charListLe, hab]

/-- charListLe is transitive. -/
theorem charListLe_trans : ∀ l1 l2 l3 : List Char,
    charListLe l1 l2 = true → charListLe l2 l3 = true → charListLe l1 l3 = true := by
  intro l1
  induction l1 with
  | nil => intro l2 l3 h12 h23; cases l3 <;> rfl
  | cons a as ih =>
    intro l2 l3 h12 h23
    cases l2 with
    | nil => simp [charListLe] at h12
    | cons b bs =>
      cases l3 with
      | nil => simp [charListLe] at h23
      | cons c cs =>
        rcases lt_trichotomy a b with hab | hab | hab
        · rcases lt_trichotomy b c with hbc | hbc | hbc
          · simp [charListLe, lt_trans hab hbc]
          · subst hbc
            simp [charListLe, hab]
          · simp [charListLe, lt_asymm hbc, hbc] at h23
        · subst hab
          rcases lt_trichotomy a c with hac | hac | hac
          · simp [charListLe, hac]
          · subst hac
            simp only [charListLe, lt_irrefl, if_false] at h12 h23 ⊢
            exact ih bs cs h12 h23
          · simp [charListLe, lt_asymm hac, hac] at h23
        · simp [charListLe, lt_asymm hab, hab] at h12

/-- Python's `key=lambda x: x.lower()` sort order on strings. -/
def pyLe (a b : String) : Prop :=
  charListLe (a.data.map Char.toLower) (b.data.map Char.toLower) = true

instance pyLeDecidable : DecidableRel pyLe := fun a b =>
  decidable_of_iff
    (charListLe (a.data.map Char.toLower) (b.data.map Char.toLower) = true) Iff.rfl

instance pyLeTrans : IsTrans String pyLe :=
  ⟨fun _ _ _ hab hbc => charListLe_trans _ _ _ hab hbc⟩

instance pyLeTotal : IsTotal String pyLe :=
  ⟨fun _ _ => charListLe_total _ _⟩

namespace DomainMergeOptimizer

/-- domain_merge_optimizer.save_domains: sort the domains with the
case-insensitive key and write one domain per line, newline-terminated,
with no header.  The iteration order of the input set is taken as a list
argument; any order gives the same multiset to the sort. -/
def save_domains (domains : List String) : String :=
  let sorted_domains := List.insertionSort pyLe domains
  String.join (sorted_domains.map (fun d => d ++ "\n"))

end DomainMergeOptimizer

/-- C8: the flat-text writer emits exactly the domain values, one per line,
each newline-terminated, with no header, as a permutation of the input that
is sorted ascending by the case-insensitive order; in particular alpha.com
is emitted before Zeta.com. -/
theorem save_domains_sorted :
    (∀ ds : List String, ∃ sd : List String,
      DomainMergeOptimizer.save_domains ds = String.join (sd.map (fun d => d ++ "\n")) ∧
      sd.Perm ds ∧ List.Sorted pyLe sd) ∧
    DomainMergeOptimizer.save_domains ["Zeta.com", "alpha.com"] = "alpha.com\nZeta.com\n" := by
  constructor
  · intro ds
    exact ⟨List.insertionSort pyLe ds, rfl, List.perm_insertionSort pyLe ds,
      List.sorted_insertionSort pyLe ds⟩
  · decide
